import Mathlib

/-!
Verification of PyIKuaiMiddle's core primitives, shallowly embedded from the
Python sources: the ReadWriteLock (src/rwlock.py), the session-renewal client
(src/src/pyikuaimiddle/lemonyikuai/core.py), the keyed expiring cache and the
periodic scheduler (src/src/pyikuaimiddle/decorators.py), and the legacy
single-slot cache (src/custom_decorators.py).
-/

/-! ## ReadWriteLock (src/rwlock.py)

The lock's mutable fields are readers (a Python int, modelled as Int) and
writer (a Bool).  Concurrent executions are modelled as a transition system:
besides the two lock fields we track the number of threads currently inside a
read-held section (nr) and inside a write-held section (nw).  Acquire steps
carry exactly the guards of the while-loops in acquire_read (line 14:
proceed when not writer) and acquire_write (line 26: proceed when not writer
and not readers > 0).  Release steps are performed by a thread that holds the
corresponding mode (nr > 0 / nw > 0), which is how the lock is used in the
repository: always through the scoped helpers read_lock() / write_lock(),
whose exit handlers release exactly what enter acquired.  notify_all and
wait do not change the modelled fields. -/

structure RWSys where
  readers : Int
  writer : Bool
  nr : Nat
  nw : Nat
deriving DecidableEq, Repr

/-- One step of one thread interacting with the ReadWriteLock. -/
inductive RWStep : RWSys → RWSys → Prop where
  | acquireRead {s : RWSys} (h : s.writer = false) :
      RWStep s ⟨s.readers + 1, s.writer, s.nr + 1, s.nw⟩
  | releaseRead {s : RWSys} (h : 0 < s.nr) :
      RWStep s ⟨s.readers - 1, s.writer, s.nr - 1, s.nw⟩
  | acquireWrite {s : RWSys} (h1 : s.writer = false) (h2 : ¬ 0 < s.readers) :
      RWStep s ⟨s.readers, true, s.nr, s.nw + 1⟩
  | releaseWrite {s : RWSys} (h : 0 < s.nw) :
      RWStep s ⟨s.readers, false, s.nr, s.nw - 1⟩

/-- Initial state of a freshly constructed ReadWriteLock (init, lines 7-8). -/
def RWSys.init : RWSys := ⟨0, false, 0, 0⟩

/-- States reachable by any interleaving of lock operations from a fresh lock. -/
inductive RWReachable : RWSys → Prop where
  | init : RWReachable RWSys.init
  | step {s s' : RWSys} : RWReachable s → RWStep s s' → RWReachable s'

/-- The inductive invariant of the lock: the readers field counts the threads
inside read sections, at most one thread is inside a write section, the writer
flag is set exactly while one is, and no read section is open while it is. -/
def RWInv (s : RWSys) : Prop :=
  s.readers = (s.nr : Int) ∧ s.nw ≤ 1 ∧ (s.writer = true ↔ s.nw = 1) ∧
    (s.writer = true → s.nr = 0)

theorem rwInv_init : RWInv RWSys.init := by
  refine ⟨rfl, by decide, ?_, ?_⟩ <;> simp [RWSys.init]

theorem rwInv_step {s s' : RWSys} (hs : RWInv s) (hstep : RWStep s s') :
    RWInv s' := by
  obtain ⟨hr, hw1, hw2, hw3⟩ := hs
  cases hstep with
  | acquireRead h =>
    refine ⟨?_, hw1, hw2, ?_⟩
    · show s.readers + 1 = ((s.nr + 1 : Nat) : Int)
      omega
    · show s.writer = true → s.nr + 1 = 0
      intro hw
      rw [h] at hw
      exact absurd hw (by simp)
  | releaseRead h =>
    refine ⟨?_, hw1, hw2, ?_⟩
    · show s.readers - 1 = ((s.nr - 1 : Nat) : Int)
      omega
    · show s.writer = true → s.nr - 1 = 0
      intro hw
      have := hw3 hw
      omega
  | acquireWrite h1 h2 =>
    have hnw : s.nw = 0 := by
      by_contra hne
      have h1' : s.nw = 1 := by omega
      have := hw2.mpr h1'
      rw [h1] at this
      exact absurd this (by simp)
    have hnr : s.nr = 0 := by omega
    refine ⟨hr, ?_, ?_, fun _ => hnr⟩
    · show s.nw + 1 ≤ 1
      omega
    · show true = true ↔ s.nw + 1 = 1
      simp [hnw]
  | releaseWrite h =>
    refine ⟨hr, ?_, ?_, ?_⟩
    · show s.nw - 1 ≤ 1
      omega
    · show false = true ↔ s.nw - 1 = 1
      simp
      omega
    · show false = true → s.nr = 0
      simp

theorem rwInv_reachable {s : RWSys} (hs : RWReachable s) : RWInv s := by
  induction hs with
  | init => exact rwInv_init
  | step _ hstep ih => exact rwInv_step ih hstep

/-- C1: ReadWriteLock state invariant.  In every state reachable by a sequence
of acquire_read / release_read / acquire_write / release_write steps in which
each acquire proceeds only when its blocking condition is false (and each
release is performed by a holder of the corresponding mode, as the scoped
helpers guarantee), the readers counter is nonnegative, an active writer
implies readers = 0, and at most one writer is active. -/
theorem rwlock_state_invariant (s : RWSys) (hs : RWReachable s) :
    0 ≤ s.readers ∧ (s.writer = true → s.readers = 0) ∧ s.nw ≤ 1 := by
  obtain ⟨hr, hw1, _, hw3⟩ := rwInv_reachable hs
  refine ⟨by omega, fun hw => ?_, hw1⟩
  simp [hr, hw3 hw]

/-- Witness for C1 at the initial state. -/
theorem rwlock_state_invariant_witness :
    0 ≤ RWSys.init.readers ∧ (RWSys.init.writer = true → RWSys.init.readers = 0) ∧
      RWSys.init.nw ≤ 1 :=
  rwlock_state_invariant RWSys.init RWReachable.init

/-! ## Session-level mutual exclusion (core.py, lines 75-119)

call() performs its upstream request while holding the read lock of the
session's one ReadWriteLock (core.py line 98), and login() performs its whole
body while holding the write lock (core.py line 76).  A thread inside the
critical section of call() is thus exactly a thread in a read-held section of
the lock, and a thread inside login() one in a write-held section. -/

/-- Number of call() invocations currently inside their upstream request. -/
def inCall (s : RWSys) : Nat := s.nr

/-- Number of login() invocations currently inside their body. -/
def inLogin (s : RWSys) : Nat := s.nw

/-- C2: mutual exclusion of call() and login().  In every reachable state no
call() critical section overlaps a login(); call()s can run concurrently
with each other (a state with two in-flight call()s is reachable); while a
login() is in progress the only possible steps keep the call() count at zero
(no new call() starts); and a login() can enter its critical section only
when no call() is in flight. -/
theorem call_login_mutual_exclusion :
    (∀ s, RWReachable s → ¬(1 ≤ inLogin s ∧ 1 ≤ inCall s))
    ∧ (∃ s, RWReachable s ∧ inCall s = 2)
    ∧ (∀ s s', RWReachable s → 1 ≤ inLogin s → RWStep s s' → inCall s' = 0)
    ∧ (∀ s s', RWReachable s → RWStep s s' → inLogin s < inLogin s' →
        inCall s = 0) := by
  refine ⟨?_, ?_, ?_, ?_⟩
  · rintro s hs ⟨hl, hc⟩
    obtain ⟨hr, hw1, hw2, hw3⟩ := rwInv_reachable hs
    have hw : s.writer = true := hw2.mpr (by simp only [inLogin] at hl; omega)
    have := hw3 hw
    simp only [inCall] at hc
    omega
  · refine ⟨_, RWReachable.step (RWReachable.step RWReachable.init
      (RWStep.acquireRead rfl)) (RWStep.acquireRead rfl), rfl⟩
  · intro s s' hs hl hstep
    obtain ⟨hr, hw1, hw2, hw3⟩ := rwInv_reachable hs
    have hw : s.writer = true := hw2.mpr (by simp only [inLogin] at hl; omega)
    have hnr : s.nr = 0 := hw3 hw
    cases hstep with
    | acquireRead h => rw [hw] at h; exact absurd h (by simp)
    | releaseRead h => exact absurd h (by omega)
    | acquireWrite h1 h2 => rw [hw] at h1; exact absurd h1 (by simp)
    | releaseWrite h => exact hnr
  · intro s s' hs hstep hlt
    obtain ⟨hr, hw1, hw2, hw3⟩ := rwInv_reachable hs
    cases hstep with
    | acquireRead h => simp only [inLogin] at hlt; omega
    | releaseRead h => simp only [inLogin] at hlt; omega
    | acquireWrite h1 h2 => simp only [inCall]; omega
    | releaseWrite h => simp only [inLogin] at hlt; omega

/-- Witness for C2 at the initial state: no overlap there. -/
theorem call_login_mutual_exclusion_witness :
    ¬(1 ≤ inLogin RWSys.init ∧ 1 ≤ inCall RWSys.init) :=
  call_login_mutual_exclusion.1 RWSys.init RWReachable.init

/-! ## Scheduler (decorators.py, lines 87-103)

The background execution is modelled as the event trace a started thread
produces: a sleep event for each time.sleep(interval) and a callF event for
each invocation of the wrapped callable.  A Python thread runs its target
callable exactly once and then terminates, so a thread whose target is the
bare callable (threading.Thread(target=func), decorators.py line 91)
produces the one-shot trace, while a thread whose target were the
while-True body of the (never referenced) method at decorators.py lines
97-100 would produce one sleep followed by one call per loop iteration.
The fuel argument counts elapsed interval periods. -/

inductive SchedEvent where
  | sleep
  | callF
deriving DecidableEq, Repr

/-- Trace of the loop body at decorators.py lines 97-100 over fuel iterations:
each iteration sleeps the interval and then invokes the callable once. -/
def scheduleWorkerTrace : Nat → List SchedEvent
  | 0 => []
  | n + 1 => SchedEvent.sleep :: SchedEvent.callF :: scheduleWorkerTrace n

/-- Trace of a thread whose target is the wrapped callable itself: the
callable runs once and the thread terminates, whatever time elapses. -/
def funcOnceTrace : List SchedEvent := [SchedEvent.callF]

/-- Trace produced after Scheduler.start (decorators.py lines 93-95): the
thread built in the constructor with the callable itself as target is started
iff the interval is positive. -/
def schedulerTrace (interval : ℚ) (_fuel : Nat) : List SchedEvent :=
  if 0 < interval then funcOnceTrace else []

/-- C3: refuted on the code.  For every positive interval and any number of
elapsed interval periods, the trace of the started Scheduler thread contains
exactly one invocation of the callable, never more, because the thread target
is the callable itself rather than the looping worker body; the dead worker
body would have produced one invocation per elapsed interval, which is what
the claim describes. -/
theorem scheduler_runs_func_only_once (fuel : Nat) :
    (schedulerTrace 1 fuel).count SchedEvent.callF = 1
    ∧ ¬((schedulerTrace 1 fuel).count SchedEvent.callF > 1)
    ∧ (scheduleWorkerTrace fuel).count SchedEvent.callF = fuel := by
  refine ⟨by simp [schedulerTrace, funcOnceTrace], by simp [schedulerTrace, funcOnceTrace], ?_⟩
  induction fuel with
  | zero => simp [scheduleWorkerTrace]
  | succ n ih => simp [scheduleWorkerTrace, ih]

/-! ## Python string helpers used by IKuaiSession.call

Python's substring test (the in operator) and str.replace, modelled on
character lists.  replace rewrites non-overlapping occurrences left to
right, like the builtin; the fuel argument (instantiated with the string
length, an upper bound on the steps taken) keeps the recursion structural. -/

def isPrefixCL : List Char → List Char → Bool
  | [], _ => true
  | _ :: _, [] => false
  | p :: ps, c :: cs => p == c && isPrefixCL ps cs

def containsCL (pat : List Char) : List Char → Bool
  | [] => isPrefixCL pat []
  | c :: cs => isPrefixCL pat (c :: cs) || containsCL pat cs

def replaceCL (pat rep : List Char) : Nat → List Char → List Char
  | 0, s => s
  | _ + 1, [] => []
  | fuel + 1, c :: cs =>
    if isPrefixCL pat (c :: cs) && !pat.isEmpty then
      rep ++ replaceCL pat rep fuel ((c :: cs).drop pat.length)
    else c :: replaceCL pat rep fuel cs

/-- Python: pat in s. -/
def pyContains (s pat : String) : Bool := containsCL pat.data s.data

/-- Python: s.replace(pat, rep). -/
def pyReplace (s pat rep : String) : String :=
  String.mk (replaceCL pat.data rep.data s.data.length s.data)

/-! ## IKuaiSession login and call (core.py, lines 52-119)

The transport response is modelled by its HTTP status code together with the
outcome of JSON-decoding its body: for login only the Result field of the
decoded envelope matters, so the body is an Option Int (none when json
decoding raises); for call the json module is abstracted as a decode
parameter from body text to Option envelope.  The session reference is
modelled as Option Session, none meaning cleared. -/

inductive Session where
  | fresh
deriving DecidableEq, Repr

inductive LoginOutcome where
  | ok
  | authError
  | decodeError
deriving DecidableEq, Repr

/-- IKuaiSession.login (core.py lines 75-94): a fresh session is installed
first; a non-200 status clears it and raises AuthError; an unparseable body
propagates the json error (session kept); a failing Result code clears the
session and raises AuthError; otherwise the fresh session is kept. -/
def login (status : Nat) (body : Option Int) : LoginOutcome × Option Session :=
  if status ≠ 200 then (LoginOutcome.authError, none)
  else
    match body with
    | none => (LoginOutcome.decodeError, some Session.fresh)
    | some r =>
      if r % 10000 ≠ 0 then (LoginOutcome.authError, none)
      else (LoginOutcome.ok, some Session.fresh)

/-- Upstream result envelope (Data is optional: the code uses result.get). -/
structure Envelope (α : Type) where
  Result : Int
  ErrMsg : String
  Data : Option α
deriving DecidableEq, Repr

/-- Payload of the APIError raised by check_result: the failing code and the
message interpolated into its text. -/
structure APIError where
  code : Int
  msg : String
deriving DecidableEq, Repr

/-- check_result (core.py lines 52-64): a Result code that is nonzero modulo
10000 raises APIError with the code and message; otherwise Data is returned. -/
def check_result {α : Type} (result : Envelope α) : Except APIError (Option α) :=
  if result.Result % 10000 ≠ 0 then
    Except.error ⟨result.Result, result.ErrMsg⟩
  else Except.ok result.Data

inductive CallError where
  | httpError (status : Nat)
  | runtimeError (status : Nat)
  | decodeError
  | apiError (code : Int) (msg : String)
deriving DecidableEq, Repr

def sentinel : String := "sending to kernel ..."

/-- The text surgery of core.py lines 115-118: remove the sentinel, then
remove newlines. -/
def stripSentinel (s : String) : String :=
  pyReplace (pyReplace s sentinel "") "\n" ""

/-- Undecorated body of IKuaiSession.call (core.py lines 97-119):
raise_for_status rejects 4xx/5xx, a non-200 status raises RuntimeError, then
the body is json-decoded; on a decode failure the sentinel text is looked
for, and if present the stripped body is decoded instead, the original
decode error propagating otherwise. -/
def rawCall {α : Type} (decode : String → Option (Envelope α))
    (status : Nat) (body : String) : Except CallError (Envelope α) :=
  if 400 ≤ status then Except.error (CallError.httpError status)
  else if status ≠ 200 then Except.error (CallError.runtimeError status)
  else
    match decode body with
    | some e => Except.ok e
    | none =>
      if pyContains body sentinel then
        match decode (stripSentinel body) with
        | some e => Except.ok e
        | none => Except.error CallError.decodeError
      else Except.error CallError.decodeError

/-- IKuaiSession.call as exposed: the raw body wrapped by the check_result
decorator (core.py line 96). -/
def call {α : Type} (decode : String → Option (Envelope α))
    (status : Nat) (body : String) : Except CallError (Option α) :=
  match rawCall decode status body with
  | Except.error e => Except.error e
  | Except.ok env =>
    match check_result env with
    | Except.error e => Except.error (CallError.apiError e.code e.msg)
    | Except.ok d => Except.ok d

/-- C4, counterexample to the claim as stated: a login response with HTTP
status 204 -- a 2xx status -- and a success Result code still raises
AuthError, because the code tests status != 200 rather than the 2xx class,
so AuthError is not raised only on non-2xx statuses or failing result
codes. -/
theorem login_non2xx_counterexample :
    (login 204 (some 0)).1 = LoginOutcome.authError
    ∧ 200 ≤ 204 ∧ 204 < 300 ∧ (0 : Int) % 10000 = 0 := by decide

/-- C4, amended: login raises AuthError if and only if the status is not
exactly 200 or the body decodes to an envelope whose Result code is nonzero
modulo 10000, and in every such failing case the stored session reference is
cleared. -/
theorem login_failure_semantics (status : Nat) (body : Option Int) :
    ((login status body).1 = LoginOutcome.authError ↔
      (status ≠ 200 ∨ ∃ r, body = some r ∧ r % 10000 ≠ 0))
    ∧ ((login status body).1 = LoginOutcome.authError →
      (login status body).2 = none) := by
  by_cases h : status = 200
  · subst h
    cases body with
    | none => simp [login]
    | some r =>
      by_cases hr : r % 10000 = 0
      · simp [login, hr]
        exact Int.dvd_of_emod_eq_zero hr
      · simp [login, hr]
        exact fun hdvd => hr (Int.emod_eq_zero_of_dvd hdvd)
  · simp [login, h]

/-- Witness for C4 at the spec's scenario: a 403 login response raises
AuthError and leaves the session cleared. -/
theorem login_failure_semantics_witness :
    (login 403 none).1 = LoginOutcome.authError ∧ (login 403 none).2 = none := by
  have h := login_failure_semantics 403 none
  have ha : (login 403 none).1 = LoginOutcome.authError :=
    h.1.mpr (Or.inl (by decide))
  exact ⟨ha, h.2 ha⟩

/-- C5: for every decoded response envelope, call() returns the envelope's
Data field when Result is zero modulo 10000 and raises an application error
carrying the numeric code and the message otherwise. -/
theorem call_envelope_validation {α : Type} (decode : String → Option (Envelope α))
    (body : String) (e : Envelope α) (h : decode body = some e) :
    call decode 200 body =
      if e.Result % 10000 = 0 then Except.ok e.Data
      else Except.error (CallError.apiError e.Result e.ErrMsg) := by
  unfold call rawCall check_result
  by_cases hr : e.Result % 10000 = 0
  · simp [h, hr]
  · simp [h, hr]

def env10001 : Envelope Nat := ⟨10001, "authentication failed", some 5⟩

/-- Witness for C5: an envelope with Result 10001 makes call() raise an
application error carrying code 10001 and the message. -/
theorem call_envelope_validation_witness :
    call (fun _ => some env10001) 200 "x" =
      Except.error (CallError.apiError 10001 "authentication failed") := by
  have h := call_envelope_validation (fun _ => some env10001) "x" env10001 rfl
  rw [if_neg (by decide)] at h
  exact h

/-- C6: when the response body is not valid JSON, call() re-parses the body
with the sentinel text and newlines removed exactly when the body contains
the sentinel phrase, returning the embedded envelope on success and
propagating a decode error otherwise; without the sentinel the decode error
propagates unchanged whatever the stripped body would contain. -/
theorem call_sentinel_handling {α : Type} (decode : String → Option (Envelope α))
    (body : String) (hd : decode body = none) :
    (∀ e : Envelope α, pyContains body sentinel = true →
        decode (stripSentinel body) = some e →
        rawCall decode 200 body = Except.ok e)
    ∧ (pyContains body sentinel = true →
        decode (stripSentinel body) = none →
        rawCall decode 200 body = Except.error CallError.decodeError)
    ∧ (pyContains body sentinel = false →
        rawCall decode 200 body = Except.error CallError.decodeError) := by
  refine ⟨?_, ?_, ?_⟩
  · intro e hsen hstrip
    unfold rawCall
    simp [hd, hsen, hstrip]
  · intro hsen hstrip
    unfold rawCall
    simp [hd, hsen, hstrip]
  · intro hsen
    unfold rawCall
    simp [hd, hsen]

def ackEnvelope : Envelope Nat := ⟨0, "", none⟩

def ackDecode : String → Option (Envelope Nat) :=
  fun s => if s = "X" then some ackEnvelope else none

def ackBody : String := "sending to kernel ...\nX\n"

/-- Witness for C6: a sentinel-wrapped acknowledgement body that is not JSON
itself is stripped and its embedded envelope returned. -/
theorem call_sentinel_handling_witness :
    rawCall ackDecode 200 ackBody = Except.ok ackEnvelope :=
  (call_sentinel_handling ackDecode ackBody (by decide)).1 ackEnvelope
    (by decide) (by decide)

/-! ## Keyed CacheWrapper (decorators.py, lines 47-77)

The two Python dicts _cache and _last_call are modelled as association
lists; dictGet?, dictMem, dictSet mirror d[k] lookup, the in operator, and
d[k] = v assignment.  The wall clock is rational-valued: t1 is the
time.time() read inside _cleanup (line 56) and t2 the one read after it
(line 69).  The wrapped callable F takes the argument key and an explicit
functional state, so a stateful callable such as a counter is expressible.
A KeyError (reading a dict at a missing key) is modelled as a none result
of the whole invocation; the Nat in a some result counts the invocations of
F made during the call. -/

def dictGet? {κ ν : Type} [DecidableEq κ] (d : List (κ × ν)) (k : κ) :
    Option ν :=
  (d.find? (fun p => decide (p.1 = k))).map Prod.snd

def dictMem {κ ν : Type} [DecidableEq κ] (d : List (κ × ν)) (k : κ) : Bool :=
  d.any (fun p => decide (p.1 = k))

def dictSet {κ ν : Type} [DecidableEq κ] (d : List (κ × ν)) (k : κ) (v : ν) :
    List (κ × ν) :=
  if dictMem d k then d.map (fun p => if p.1 = k then (k, v) else p)
  else d ++ [(k, v)]

structure CW (κ ν : Type) where
  cache : List (κ × ν)
  last_call : List (κ × ℚ)
deriving DecidableEq, Repr

/-- State of a freshly constructed CacheWrapper: both dicts empty. -/
def CW.empty {κ ν : Type} : CW κ ν := ⟨[], []⟩

/-- Key-based deletion test of CacheWrapper._cleanup: the key is in _cache
and its last-call timestamp is at least expire seconds old. -/
def expiredKey {κ ν : Type} [DecidableEq κ] (expire t1 : ℚ) (s : CW κ ν)
    (k : κ) : Bool :=
  dictMem s.cache k && decide (expire ≤ t1 - (dictGet? s.last_call k).getD 0)

/-- CacheWrapper._cleanup (decorators.py lines 55-60): delete from both
dicts every cache key whose entry is at least expire seconds old; the read
of _last_call at a cache key missing from it raises KeyError (none). -/
def cleanup {κ ν : Type} [DecidableEq κ] (expire t1 : ℚ) (s : CW κ ν) :
    Option (CW κ ν) :=
  if s.cache.all (fun p => dictMem s.last_call p.1) then
    some ⟨s.cache.filter (fun p => !expiredKey expire t1 s p.1),
          s.last_call.filter (fun p => !expiredKey expire t1 s p.1)⟩
  else none

/-- CacheWrapper call body (decorators.py lines 62-77): a nonpositive expiry
bypasses the cache entirely; otherwise cleanup runs, the callable is invoked
and its result stored at the current time when the key is absent or its
entry is at least expire seconds old, and the stored value for the key is
returned. -/
def cwCall {κ ν σ : Type} [DecidableEq κ] (F : κ → σ → ν × σ) (expire : ℚ)
    (k : κ) (t1 t2 : ℚ) (fs : σ) (s : CW κ ν) :
    Option (ν × Nat × σ × CW κ ν) :=
  if expire ≤ 0 then
    some ((F k fs).1, 1, (F k fs).2, s)
  else
    (cleanup expire t1 s).bind (fun s1 =>
      if dictMem s1.cache k = false
          ∨ expire ≤ t2 - (dictGet? s1.last_call k).getD 0 then
        let s2 : CW κ ν :=
          ⟨dictSet s1.cache k (F k fs).1, dictSet s1.last_call k t2⟩
        (dictGet? s2.cache k).map (fun v => (v, 1, (F k fs).2, s2))
      else
        (dictGet? s1.cache k).map (fun v => (v, 0, fs, s1)))

/-- Well-formedness of a CacheWrapper state: _cache and _last_call hold
exactly the same keys, as every reachable state does. -/
def CWWF {κ ν : Type} [DecidableEq κ] (s : CW κ ν) : Prop :=
  ∀ k, dictMem s.cache k = dictMem s.last_call k

theorem dictMem_filterKey {κ ν : Type} [DecidableEq κ] (g : κ → Bool)
    (d : List (κ × ν)) (k : κ) :
    dictMem (d.filter (fun p => !g p.1)) k = (dictMem d k && !g k) := by
  induction d with
  | nil => simp [dictMem]
  | cons p d ih =>
    by_cases hpk : p.1 = k
    · by_cases hg : g k
      · simp [dictMem, List.filter, hpk, hg] at *
        simpa [hpk, hg] using ih
      · simp [dictMem, List.filter, hpk, hg] at *
    · by_cases hgp : g p.1
      · simp [dictMem, List.filter, hpk, hgp] at *
        exact ih
      · simp [dictMem, List.filter, hpk, hgp] at *
        exact ih

theorem dictMem_map_set {κ ν : Type} [DecidableEq κ] (d : List (κ × ν))
    (k k' : κ) (v : ν) (hk' : ¬ k' = k) :
    dictMem (d.map (fun p => if p.1 = k then (k, v) else p)) k'
      = dictMem d k' := by
  induction d with
  | nil => simp [dictMem]
  | cons p d ih =>
    by_cases hpk : p.1 = k
    · have h1 : ¬ k = k' := fun h => hk' h.symm
      have h2 : ¬ p.1 = k' := by rw [hpk]; exact h1
      simp only [dictMem, List.map_cons, List.any_cons, if_pos hpk] at ih ⊢
      simp [h1, h2, ih]
    · simp only [dictMem, List.map_cons, List.any_cons, if_neg hpk] at ih ⊢
      simp [ih]

theorem dictMem_map_set_self {κ ν : Type} [DecidableEq κ] (d : List (κ × ν))
    (k : κ) (v : ν) :
    dictMem (d.map (fun p => if p.1 = k then (k, v) else p)) k
      = dictMem d k := by
  induction d with
  | nil => simp [dictMem]
  | cons p d ih =>
    by_cases hpk : p.1 = k
    · simp only [dictMem, List.map_cons, List.any_cons, if_pos hpk] at ih ⊢
      simp [hpk]
    · simp only [dictMem, List.map_cons, List.any_cons, if_neg hpk] at ih ⊢
      simp [ih]

theorem dictMem_dictSet {κ ν : Type} [DecidableEq κ] (d : List (κ × ν))
    (k k' : κ) (v : ν) :
    dictMem (dictSet d k v) k' = (dictMem d k' || decide (k' = k)) := by
  unfold dictSet
  by_cases hm : dictMem d k
  · rw [if_pos hm]
    by_cases hk' : k' = k
    · subst hk'
      rw [dictMem_map_set_self]
      simp [hm]
    · rw [dictMem_map_set d k k' v hk']
      simp [hk']
  · rw [if_neg hm]
    by_cases hk' : k' = k
    · subst hk'
      simp [dictMem, List.any_append]
    · have h1 : ¬ k = k' := fun h => hk' h.symm
      simp [dictMem, List.any_append, hk', h1]

theorem dictGet?_dictSet {κ ν : Type} [DecidableEq κ] (d : List (κ × ν))
    (k : κ) (v : ν) : dictGet? (dictSet d k v) k = some v := by
  unfold dictSet
  by_cases hm : dictMem d k
  · rw [if_pos hm]
    induction d with
    | nil => simp [dictMem] at hm
    | cons p d ih =>
      by_cases hpk : p.1 = k
      · simp [dictGet?, List.find?_cons_of_pos, hpk]
      · have hm' : dictMem d k = true := by
          simp only [dictMem, List.any_cons, hpk] at hm ⊢
          simpa using hm
        simp only [List.map_cons, if_neg hpk, dictGet?]
        rw [List.find?_cons_of_neg _ (by simpa using hpk)]
        exact ih hm'
  · rw [if_neg hm]
    induction d with
    | nil => simp [dictGet?]
    | cons p d ih =>
      have hpk : ¬ p.1 = k := by
        intro h
        exact hm (by simp [dictMem, List.any_cons, h])
      have hm' : ¬ dictMem d k = true := by
        intro h
        apply hm
        simp only [dictMem, List.any_cons] at h ⊢
        simp [h]
      simp only [List.cons_append, dictGet?]
      rw [List.find?_cons_of_neg _ (by simpa using hpk)]
      exact ih hm'

theorem dictGet?_of_mem {κ ν : Type} [DecidableEq κ] (d : List (κ × ν))
    (k : κ) (h : dictMem d k = true) : ∃ v, dictGet? d k = some v := by
  induction d with
  | nil => simp [dictMem] at h
  | cons p d ih =>
    by_cases hpk : p.1 = k
    · exact ⟨p.2, by simp [dictGet?, List.find?_cons_of_pos, hpk]⟩
    · have h' : dictMem d k = true := by
        simp only [dictMem, List.any_cons, hpk] at h ⊢
        simpa using h
      obtain ⟨v, hv⟩ := ih h'
      refine ⟨v, ?_⟩
      simp only [dictGet?]
      rw [List.find?_cons_of_neg _ (by simpa using hpk)]
      exact hv

/-- C8: a CacheWrapper with nonpositive expiry bypasses the cache on every
call: the wrapped callable is invoked exactly once, its fresh result is
returned directly, and the cache state is left untouched, whatever it was. -/
theorem cache_bypass_nonpositive_expiry {κ ν σ : Type} [DecidableEq κ]
    (F : κ → σ → ν × σ) (expire : ℚ) (k : κ) (t1 t2 : ℚ) (fs : σ)
    (s : CW κ ν) (h : expire ≤ 0) :
    cwCall F expire k t1 t2 fs s = some ((F k fs).1, 1, (F k fs).2, s) := by
  unfold cwCall
  rw [if_pos h]

def counterF : Nat → Nat → Nat × Nat := fun _ n => (n + 1, n + 1)

/-- Witness for C8 at expiry 0 with a counter callable and a nonempty cache:
the callable runs and the stale entry is neither used nor evicted. -/
theorem cache_bypass_nonpositive_expiry_witness :
    cwCall counterF 0 7 3 3 0 ⟨[(7, 99)], [(7, 1)]⟩ =
      some (1, 1, 1, ⟨[(7, 99)], [(7, 1)]⟩) :=
  cache_bypass_nonpositive_expiry counterF 0 7 3 3 0 ⟨[(7, 99)], [(7, 1)]⟩
    (by norm_num)

/-- C7: keyed cache freshness.  From an empty cache a first call at time t
invokes the callable and stores its result at t; a second call with the
same key at any time t2 with t2 - t < T returns the identical stored result
without invoking the callable again (so across the two calls it ran exactly
once); a call at any time t3 with t3 - t >= T evicts the entry, invokes the
callable again and stores the new result at t3. -/
theorem cache_freshness {κ ν σ : Type} [DecidableEq κ] (F : κ → σ → ν × σ)
    (T t t2 t3 : ℚ) (k : κ) (fs : σ)
    (hT : 0 < T) (h2 : t2 - t < T) (h3 : T ≤ t3 - t) :
    cwCall F T k t t fs CW.empty =
      some ((F k fs).1, 1, (F k fs).2, ⟨[(k, (F k fs).1)], [(k, t)]⟩)
    ∧ cwCall F T k t2 t2 (F k fs).2 ⟨[(k, (F k fs).1)], [(k, t)]⟩ =
      some ((F k fs).1, 0, (F k fs).2, ⟨[(k, (F k fs).1)], [(k, t)]⟩)
    ∧ cwCall F T k t3 t3 (F k fs).2 ⟨[(k, (F k fs).1)], [(k, t)]⟩ =
      some ((F k (F k fs).2).1, 1, (F k (F k fs).2).2,
        ⟨[(k, (F k (F k fs).2).1)], [(k, t3)]⟩) := by
  have hT' : ¬ T ≤ 0 := not_le.mpr hT
  have h2' : ¬ T ≤ t2 - t := not_le.mpr h2
  refine ⟨?_, ?_, ?_⟩
  · unfold cwCall cleanup
    simp [hT', CW.empty, dictMem, dictGet?, dictSet, expiredKey]
  · unfold cwCall cleanup
    simp [hT', h2', dictMem, dictGet?, dictSet, expiredKey]
  · unfold cwCall cleanup
    simp [hT', h3, dictMem, dictGet?, dictSet, expiredKey]

/-- Witness for C7, the spec scenario: expiry 5 around a counter starting
at 0 -- the call at t=0 returns 1, the call at t=2 returns the cached 1
without running the counter, the call at t=6 recomputes and returns 2. -/
theorem cache_freshness_witness :
    cwCall counterF 5 0 0 0 0 CW.empty = some (1, 1, 1, ⟨[(0, 1)], [(0, 0)]⟩)
    ∧ cwCall counterF 5 0 2 2 1 ⟨[(0, 1)], [(0, 0)]⟩ =
      some (1, 0, 1, ⟨[(0, 1)], [(0, 0)]⟩)
    ∧ cwCall counterF 5 0 6 6 1 ⟨[(0, 1)], [(0, 0)]⟩ =
      some (2, 1, 2, ⟨[(0, 2)], [(0, 6)]⟩) :=
  cache_freshness counterF 5 0 2 6 0 0 (by norm_num) (by norm_num) (by norm_num)

/-- C10: with positive expiry and well-formed state (both dicts holding the
same keys, as in every state a sequential execution reaches from the empty
initial state), an invocation never hits a missing key: neither the
_last_call read inside _cleanup nor the final _cache[key] read can raise,
and the resulting state is well-formed again. -/
theorem cache_lookup_total {κ ν σ : Type} [DecidableEq κ]
    (F : κ → σ → ν × σ) (expire : ℚ) (k : κ) (t1 t2 : ℚ) (fs : σ)
    (s : CW κ ν) (hT : 0 < expire) (hwf : CWWF s) :
    cwCall F expire k t1 t2 fs s ≠ none
    ∧ (∀ v c fs2 s2, cwCall F expire k t1 t2 fs s = some (v, c, fs2, s2) →
        CWWF s2) := by
  have hT' : ¬ expire ≤ 0 := not_le.mpr hT
  have hall : s.cache.all (fun p => dictMem s.last_call p.1) = true := by
    rw [List.all_eq_true]
    intro p hp
    rw [← hwf p.1]
    unfold dictMem
    exact List.any_eq_true.mpr ⟨p, hp, by simp⟩
  have hclean : cleanup expire t1 s =
      some ⟨s.cache.filter (fun p => !expiredKey expire t1 s p.1),
            s.last_call.filter (fun p => !expiredKey expire t1 s p.1)⟩ := by
    unfold cleanup
    rw [if_pos hall]
  have hwf1 : CWWF ⟨s.cache.filter (fun p => !expiredKey expire t1 s p.1),
      s.last_call.filter (fun p => !expiredKey expire t1 s p.1)⟩ := by
    intro k'
    show dictMem (s.cache.filter _) k' = dictMem (s.last_call.filter _) k'
    rw [dictMem_filterKey, dictMem_filterKey, hwf k']
  unfold cwCall
  rw [if_neg hT', hclean, Option.some_bind]
  set s1 : CW κ ν :=
    ⟨s.cache.filter (fun p => !expiredKey expire t1 s p.1),
     s.last_call.filter (fun p => !expiredKey expire t1 s p.1)⟩ with hs1
  by_cases hcond : dictMem s1.cache k = false
      ∨ expire ≤ t2 - (dictGet? s1.last_call k).getD 0
  · rw [if_pos hcond]
    dsimp only
    rw [dictGet?_dictSet]
    have hwf2 : CWWF ⟨dictSet s1.cache k (F k fs).1,
        dictSet s1.last_call k t2⟩ := by
      intro k'
      show dictMem (dictSet s1.cache k (F k fs).1) k' =
        dictMem (dictSet s1.last_call k t2) k'
      rw [dictMem_dictSet, dictMem_dictSet, hwf1 k']
    constructor
    · simp
    · intro v c fs2 s2 hv
      simp only [Option.map_some', Option.some.injEq, Prod.mk.injEq] at hv
      obtain ⟨_, _, _, hs2⟩ := hv
      rw [← hs2]
      exact hwf2
  · rw [if_neg hcond]
    have hmem : dictMem s1.cache k = true := by
      rcases Bool.eq_false_or_eq_true (dictMem s1.cache k) with h | h
      · exact h
      · exact absurd (Or.inl h) hcond
    obtain ⟨v, hv⟩ := dictGet?_of_mem s1.cache k hmem
    rw [hv]
    constructor
    · simp
    · intro v' c fs2 s2 hv'
      simp only [Option.map_some', Option.some.injEq, Prod.mk.injEq] at hv'
      obtain ⟨_, _, _, hs2⟩ := hv'
      rw [← hs2]
      exact hwf1

/-- Witness for C10 on a concrete well-formed state. -/
theorem cache_lookup_total_witness :
    cwCall counterF 5 0 9 9 1 ⟨[(0, 1)], [(0, 0)]⟩ ≠ none :=
  (cache_lookup_total counterF 5 0 9 9 1 ⟨[(0, 1)], [(0, 0)]⟩ (by norm_num)
    (by intro k'; rfl)).1

/-! ## Single-slot CacheWrapper (custom_decorators.py, lines 44-57)

The legacy variant keeps one slot with no argument keying: _cache is a
Python value initialised to None and _last_call a timestamp initialised
to 0.  A wrapped callable's Python result may itself be None, so values
are Option-typed and none doubles as the empty-slot sentinel, exactly as
in the code's is-None test.  t1 is the time.time() read in the condition
and t2 the one stored after computing; the Nat counts invocations of the
wrapped callable during the call. -/

structure CW1 (ν : Type) where
  cache : Option ν
  last_call : ℚ
deriving DecidableEq, Repr

/-- State of a freshly constructed single-slot CacheWrapper. -/
def CW1.empty {ν : Type} : CW1 ν := ⟨none, 0⟩

/-- call of the single-slot CacheWrapper (custom_decorators.py lines 52-57):
recompute and restamp when the slot is None or at least expire seconds old,
then return the slot. -/
def cw1Call {κ ν σ : Type} (F : κ → σ → Option ν × σ) (expire : ℚ) (k : κ)
    (t1 t2 : ℚ) (fs : σ) (s : CW1 ν) : Option ν × Nat × σ × CW1 ν :=
  if s.cache.isNone ∨ expire ≤ t1 - s.last_call then
    ((F k fs).1, 1, (F k fs).2, ⟨(F k fs).1, t2⟩)
  else (s.cache, 0, fs, s)

def noneF : Unit → Unit → Option Nat × Unit := fun _ _ => (none, ())

/-- C9, counterexample to the claim as stated: a wrapped callable returning
Python None is stored as the slot's None sentinel, so a second call one
second after the first -- well within the 5-second expiry -- invokes the
wrapped callable again instead of returning the stored result without
invoking it. -/
theorem single_slot_none_counterexample :
    ((1 : ℚ) - 0 < 5)
    ∧ (cw1Call noneF 5 () 1 1 ()
        (cw1Call noneF 5 () 0 0 () CW1.empty).2.2.2).2.1 = 1 := by
  constructor
  · norm_num
  · rfl

/-- C9, amended: the single-slot variant has the keyed variant's expiry
semantics with one slot keyed by nothing, provided the stored result is not
None: a call finding a non-None slot computed less than expire seconds ago
returns it without invoking the wrapped callable, regardless of the current
arguments; otherwise the callable runs with the current call's arguments
and its result is stored with the current timestamp. -/
theorem single_slot_cache_semantics {κ ν σ : Type} (F : κ → σ → Option ν × σ)
    (expire : ℚ) (k : κ) (t1 t2 : ℚ) (fs : σ) (s : CW1 ν) :
    (∀ v, s.cache = some v → t1 - s.last_call < expire →
        cw1Call F expire k t1 t2 fs s = (some v, 0, fs, s))
    ∧ (s.cache = none ∨ expire ≤ t1 - s.last_call →
        cw1Call F expire k t1 t2 fs s =
          ((F k fs).1, 1, (F k fs).2, ⟨(F k fs).1, t2⟩)) := by
  constructor
  · intro v hv hfresh
    unfold cw1Call
    rw [if_neg]
    · rw [hv]
    · rintro (h | h)
      · rw [hv] at h
        simp at h
      · exact absurd hfresh (not_lt.mpr h)
  · intro h
    have hc : s.cache.isNone = true ∨ expire ≤ t1 - s.last_call := by
      rcases h with h | h
      · exact Or.inl (by rw [h]; rfl)
      · exact Or.inr h
    unfold cw1Call
    rw [if_pos hc]

def someCounterF : Unit → Nat → Option Nat × Nat :=
  fun _ n => (some (n + 1), n + 1)

/-- Witness for C9 on a fresh slot holding 7 stamped at time 0, read again
at time 2 under a 5-second expiry: the stored 7 comes back with no
invocation of the wrapped callable. -/
theorem single_slot_cache_semantics_witness :
    cw1Call someCounterF 5 () 2 2 0 ⟨some 7, 0⟩ = (some 7, 0, 0, ⟨some 7, 0⟩) :=
  (single_slot_cache_semantics someCounterF 5 () 2 2 0 ⟨some 7, 0⟩).1 7 rfl
    (by norm_num)
